import Mathlib

/-!
# Verification of the `ric-rac-roe` Tic-Tac-Toe engine

A shallow embedding of `src/lib.rs` (module `game`) and proofs of the
specification's claims about it.

Modelling conventions:
* Rust `u8` coordinates become `Nat` (the bounds checks of the source are
  reproduced literally, so nothing depends on the 8-bit range).
* A Rust panic (out-of-bounds array indexing, `expect` on `None`) is modelled
  as the `none` value of an `Option`-typed result; a returned value `v` of the
  Rust function is `some v`.
* `&mut self` methods become functions `Game → ... → Option (result × Game)`
  returning the updated state next to the Rust return value.
-/

/-- `TileValue` from `src/lib.rs`: the two player marks `X` and `O`. -/
inductive TileValue where
  | X
  | O
  deriving DecidableEq, Repr, Fintype

/-- `TileValue::toggle`: swaps `X` and `O`. -/
def TileValue.toggle : TileValue → TileValue
  | X => O
  | O => X

/-- `Coords` from `src/lib.rs`: board coordinates `(row, col)`. -/
structure Coords where
  row : Nat
  col : Nat
  deriving DecidableEq, Repr

/-- `CoordsBuildError` from `src/lib.rs`. -/
inductive CoordsBuildError where
  | OutOfBounds
  deriving DecidableEq, Repr

/-- `Coords::build`: bounds-checked constructor, `0..3` on both axes. -/
def Coords.build (row col : Nat) : Except CoordsBuildError Coords :=
  if row < 3 ∧ col < 3 then .ok ⟨row, col⟩ else .error .OutOfBounds

/-- `Board` from `src/lib.rs`: a 3×3 array of optional tile values, stored
row-major as a list of rows (row `0` first). -/
structure Board where
  tiles : List (List (Option TileValue))
  deriving DecidableEq, Repr

/-- `Board::new`: all nine tiles empty. -/
def Board.new : Board :=
  ⟨[[none, none, none], [none, none, none], [none, none, none]]⟩

/-- `Board::value_at_coords`: reads `self.0[row][col]`. Rust indexes the
arrays directly, panicking when an index is out of range; the panic is the
outer `none`. -/
def Board.value_at_coords (b : Board) (c : Coords) : Option (Option TileValue) :=
  match b.tiles[c.row]? with
  | none => none
  | some r => r[c.col]?

/-- `Board::set_tile` (via `value_at_coords_mut`): overwrites the tile at `c`
unconditionally; `none` is the Rust index-out-of-bounds panic. -/
def Board.set_tile (b : Board) (c : Coords) (v : Option TileValue) : Option Board :=
  match b.tiles[c.row]? with
  | none => none
  | some r =>
    if c.col < r.length then some ⟨b.tiles.set c.row (r.set c.col v)⟩ else none

/-- `Turn` from `src/lib.rs`: a player playing `value` at `coords`. -/
structure Turn where
  value : TileValue
  coords : Coords
  deriving DecidableEq, Repr

/-- `GameResult` from `src/lib.rs`. -/
inductive GameResult where
  | Winner (v : TileValue)
  | Tie
  deriving DecidableEq, Repr

/-- `TurnError` from `src/lib.rs`. -/
inductive TurnError where
  | TileFull (v : TileValue)
  | GameOver (r : GameResult)
  deriving DecidableEq, Repr

/-- `Game` from `src/lib.rs`: board, history, whose turn it is, and the
cached result. -/
structure Game where
  board : Board
  turn_history : List Turn
  player_turn : TileValue
  result : Option GameResult
  deriving DecidableEq, Repr

/-- `Game::new`: empty board, no turns, turn `X`, no result. -/
def Game.new : Game :=
  ⟨Board.new, [], TileValue.X, none⟩

/-- `Game::WIN_LINES`: the 8 winning lines in source order — 3 rows, then
3 columns, then the 2 diagonals. Each `[Coords; 3]` becomes a triple. -/
def Game.WIN_LINES : List (Coords × Coords × Coords) :=
  [ (⟨0, 0⟩, ⟨0, 1⟩, ⟨0, 2⟩),
    (⟨1, 0⟩, ⟨1, 1⟩, ⟨1, 2⟩),
    (⟨2, 0⟩, ⟨2, 1⟩, ⟨2, 2⟩),
    (⟨0, 0⟩, ⟨1, 0⟩, ⟨2, 0⟩),
    (⟨0, 1⟩, ⟨1, 1⟩, ⟨2, 1⟩),
    (⟨0, 2⟩, ⟨1, 2⟩, ⟨2, 2⟩),
    (⟨0, 0⟩, ⟨1, 1⟩, ⟨2, 2⟩),
    (⟨0, 2⟩, ⟨1, 1⟩, ⟨2, 0⟩) ]

/-- The body of `Game::check_end`'s per-line work once the three tile reads
have succeeded: skip the line if any tile is empty (`continue` becomes
`some none`); otherwise unwrap the tiles (the `expect` — its failure is the
inner `none` branch), test all-`X` or all-`O`, and report the 0th value as
the winner. -/
def Game.line_result (t0 t1 t2 : Option TileValue) : Option (Option GameResult) :=
  if t0.isNone ∨ t1.isNone ∨ t2.isNone then some none
  else
    match t0, t1, t2 with
    | some v0, some v1, some v2 =>
      if (v0 = TileValue.X ∧ v1 = TileValue.X ∧ v2 = TileValue.X) ∨
         (v0 = TileValue.O ∧ v1 = TileValue.O ∧ v2 = TileValue.O) then
        some (some (GameResult.Winner v0))
      else some none
    | _, _, _ => none

/-- One iteration of `Game::check_end`'s `for line in Self::WIN_LINES` loop:
read the line's three tiles (outer `none` = index panic) and apply
`Game.line_result`. -/
def Game.check_line (b : Board) (l : Coords × Coords × Coords) :
    Option (Option GameResult) :=
  match b.value_at_coords l.1, b.value_at_coords l.2.1, b.value_at_coords l.2.2 with
  | some t0, some t1, some t2 => Game.line_result t0 t1 t2
  | _, _, _ => none

/-- The `for` loop of `Game::check_end` over a list of lines: the first line
producing a winner returns it (`some (some r)`), a skipped or non-winning
line continues, and a panic (`none`) propagates. -/
def Game.scan_lines (b : Board) : List (Coords × Coords × Coords) → Option (Option GameResult)
  | [] => some none
  | l :: rest =>
    match Game.check_line b l with
    | none => none
    | some (some r) => some (some r)
    | some none => Game.scan_lines b rest

/-- `Game::check_end`: cached-result short-circuit, then the win-line scan,
then the all-tiles-occupied tie check. `none` is a Rust panic. -/
def Game.check_end (g : Game) : Option (Option GameResult) :=
  if g.result.isSome then some g.result
  else
    match Game.scan_lines g.board Game.WIN_LINES with
    | none => none
    | some (some r) => some (some r)
    | some none =>
      if g.board.tiles.all (fun row => row.all (fun tile => tile.isSome)) then
        some (some GameResult.Tie)
      else some none

/-- `Game::check_and_update_result`: `self.result = self.check_end()` and
return the new value. -/
def Game.check_and_update_result (g : Game) : Option (Option GameResult × Game) :=
  match g.check_end with
  | none => none
  | some r => some (r, { g with result := r })

/-- `Game::take_turn`: reject when the game is over or the tile is full,
otherwise set the tile, push the turn onto the history, and recompute the
cached result. -/
def Game.take_turn (g : Game) (t : Turn) :
    Option (Except TurnError (Option GameResult) × Game) :=
  match g.result with
  | some x => some (.error (.GameOver x), g)
  | none =>
    match g.board.value_at_coords t.coords with
    | none => none
    | some (some val) => some (.error (.TileFull val), g)
    | some none =>
      match g.board.set_tile t.coords (some t.value) with
      | none => none
      | some board2 =>
        match Game.check_and_update_result
            { g with board := board2, turn_history := g.turn_history ++ [t] } with
        | none => none
        | some (res, g2) => some (.ok res, g2)

/-- `Game::play_coords`: `take_turn` with the internal `player_turn` as the
player; the `?` operator returns an error unchanged, and on success
`player_turn` is toggled. -/
def Game.play_coords (g : Game) (coords : Coords) :
    Option (Except TurnError (Option GameResult) × Game) :=
  match g.take_turn ⟨g.player_turn, coords⟩ with
  | none => none
  | some (.error e, g2) => some (.error e, g2)
  | some (.ok r, g2) => some (.ok r, { g2 with player_turn := g2.player_turn.toggle })

/-- A board value is well-formed when it is an actual 3×3 grid, as every
board built from `Board::new` and `Board::set_tile` is. -/
def Board.WF (b : Board) : Prop :=
  b.tiles.length = 3 ∧ ∀ r ∈ b.tiles, r.length = 3

instance (b : Board) : Decidable b.WF := by
  unfold Board.WF; infer_instance

/-- Running a list of turns through `Game::take_turn` from a given state,
requiring every turn to be accepted (`Ok`); `none` when any turn is rejected
or panics. -/
def Game.run_turns (g : Game) : List Turn → Option Game
  | [] => some g
  | t :: ts =>
    match g.take_turn t with
    | some (.ok _, g2) => Game.run_turns g2 ts
    | _ => none

/-- The states reachable from `Game::new` by any sequence of `take_turn`
(with arbitrary marks) and `play_coords` calls. -/
inductive Game.Reachable : Game → Prop
  | new : Game.Reachable Game.new
  | take (g : Game) (t : Turn) (out : Except TurnError (Option GameResult)) (g2 : Game) :
      Game.Reachable g → Game.take_turn g t = some (out, g2) → Game.Reachable g2
  | play (g : Game) (c : Coords) (out : Except TurnError (Option GameResult)) (g2 : Game) :
      Game.Reachable g → Game.play_coords g c = some (out, g2) → Game.Reachable g2

/-- Modelled from the spec: step 3 of the end-state algorithm for a single
line — a line with any empty tile is skipped, and a line whose three tiles
hold the same mark yields that mark. -/
def Game.spec_triple_winner (t0 t1 t2 : Option TileValue) : Option TileValue :=
  match t0, t1, t2 with
  | some a, some b, some c => if a = b ∧ b = c then some a else none
  | _, _, _ => none

/-- Modelled from the spec: reading one line's tiles. The spec's reads are
total (`value_at` "never fails for an in-range Coordinate"), so the panic
layer is collapsed with `Option.join`. -/
def Game.spec_line_winner (b : Board) (l : Coords × Coords × Coords) : Option TileValue :=
  Game.spec_triple_winner ((b.value_at_coords l.1).join) ((b.value_at_coords l.2.1).join)
    ((b.value_at_coords l.2.2).join)

/-- Modelled from the spec: scan the lines in enumeration order and return
the first fully-matched line's mark. -/
def Game.spec_first_winner (b : Board) :
    List (Coords × Coords × Coords) → Option TileValue
  | [] => none
  | l :: rest =>
    match Game.spec_line_winner b l with
    | some m => some m
    | none => Game.spec_first_winner b rest

/-- Modelled from the spec: the full end-state algorithm, steps 1-5 — cached
result short-circuit; first winning line of the 8, in the fixed
rows/columns/diagonals order, wins; tie when every tile is occupied;
otherwise no result. -/
def Game.check_end_from_spec (g : Game) : Option GameResult :=
  match g.result with
  | some r => some r
  | none =>
    match Game.spec_first_winner g.board Game.WIN_LINES with
    | some m => some (GameResult.Winner m)
    | none =>
      if g.board.tiles.all (fun row => row.all (fun tile => tile.isSome)) then
        some GameResult.Tie
      else none

/-- On a well-formed board every in-range read succeeds. -/
theorem Board.value_at_coords_total (b : Board) (hb : b.WF) (c : Coords)
    (hr : c.row < 3) (hc : c.col < 3) : ∃ t, b.value_at_coords c = some t := by
  obtain ⟨hlen, hrows⟩ := hb
  have hr' : c.row < b.tiles.length := by omega
  have hrow : b.tiles[c.row]? = some b.tiles[c.row] := List.getElem?_eq_getElem hr'
  have hmem : b.tiles[c.row] ∈ b.tiles := List.getElem_mem hr'
  have hc' : c.col < (b.tiles[c.row]).length := by rw [hrows _ hmem]; omega
  refine ⟨(b.tiles[c.row])[c.col], ?_⟩
  unfold Board.value_at_coords
  rw [hrow]
  exact List.getElem?_eq_getElem hc'

/-- The per-line check of `check_end` agrees with the spec's wording, and in
particular never reaches the `expect` panic branch. -/
theorem Game.line_result_eq_spec (t0 t1 t2 : Option TileValue) :
    Game.line_result t0 t1 t2 =
      some ((Game.spec_triple_winner t0 t1 t2).map GameResult.Winner) := by
  revert t0 t1 t2
  decide

/-- Under in-range reads, the `WIN_LINES` scan of `check_end` computes
exactly the spec's first-winning-line value (and never panics). -/
theorem Game.scan_lines_eq_spec (b : Board) :
    ∀ ls : List (Coords × Coords × Coords),
      (∀ l ∈ ls,
        (∃ t, b.value_at_coords l.1 = some t) ∧
        (∃ t, b.value_at_coords l.2.1 = some t) ∧
        (∃ t, b.value_at_coords l.2.2 = some t)) →
      Game.scan_lines b ls =
        some ((Game.spec_first_winner b ls).map GameResult.Winner) := by
  intro ls
  induction ls with
  | nil => intro _; rfl
  | cons l rest ih =>
    intro hls
    obtain ⟨⟨t0, h0⟩, ⟨t1, h1⟩, ⟨t2, h2⟩⟩ := hls l (List.mem_cons_self l rest)
    have hrest := fun l hl => hls l (List.mem_cons_of_mem _ hl)
    unfold Game.scan_lines Game.check_line Game.spec_first_winner Game.spec_line_winner
    rw [h0, h1, h2]
    simp only [Option.join, Option.some_bind, id_eq]
    rw [Game.line_result_eq_spec t0 t1 t2]
    cases hw : Game.spec_triple_winner t0 t1 t2 with
    | some m => rfl
    | none => simpa using ih hrest

/-- The three reads of every `WIN_LINES` line succeed on a well-formed
board. -/
theorem Game.win_lines_reads_total (b : Board) (hb : b.WF) :
    ∀ l ∈ Game.WIN_LINES,
      (∃ t, b.value_at_coords l.1 = some t) ∧
      (∃ t, b.value_at_coords l.2.1 = some t) ∧
      (∃ t, b.value_at_coords l.2.2 = some t) := by
  intro l hl
  fin_cases hl <;>
    exact ⟨Board.value_at_coords_total b hb _ (by decide) (by decide),
      Board.value_at_coords_total b hb _ (by decide) (by decide),
      Board.value_at_coords_total b hb _ (by decide) (by decide)⟩

/-- On a well-formed board `check_end` never panics and returns exactly what
the spec's end-state algorithm prescribes. -/
theorem Game.check_end_eq_spec (g : Game) (hb : g.board.WF) :
    g.check_end = some (Game.check_end_from_spec g) := by
  unfold Game.check_end Game.check_end_from_spec
  cases hres : g.result with
  | some r => rfl
  | none =>
    simp only [Option.isSome_none, Bool.false_eq_true, if_false]
    rw [Game.scan_lines_eq_spec g.board Game.WIN_LINES (Game.win_lines_reads_total g.board hb)]
    cases hw : Game.spec_first_winner g.board Game.WIN_LINES with
    | some m => rfl
    | none =>
      by_cases hfull : (g.board.tiles.all (fun row => row.all (fun tile => tile.isSome))) = true
      · simp only [hfull, if_true]
        rfl
      · simp only [hfull, if_false]
        rfl

/-- Inversion for a successful `Coords.build`. -/
theorem Coords.build_ok (row col : Nat) (c : Coords)
    (h : Coords.build row col = .ok c) : c = ⟨row, col⟩ ∧ row < 3 ∧ col < 3 := by
  unfold Coords.build at h
  split at h
  · rename_i hc
    exact ⟨(Except.ok.inj h).symm, hc.1, hc.2⟩
  · exact absurd h (by simp)

/-- A concrete state used to instantiate theorems with hypotheses: `X` has
been played at `(0,0)` and it is `O`'s turn. -/
def Game.exampleX00 : Game :=
  ⟨⟨[[some TileValue.X, none, none], [none, none, none], [none, none, none]]⟩,
    [⟨TileValue.X, ⟨0, 0⟩⟩], TileValue.O, none⟩

/-- A concrete finished state: same board, with a cached result. -/
def Game.exampleOver : Game :=
  { Game.exampleX00 with result := some (GameResult.Winner TileValue.X) }

/-- C2: with no result cached, `take_turn` on a tile already holding mark `m`
returns `TileFull m` and leaves the whole game state unchanged. -/
theorem take_turn_tile_full (g : Game) (t : Turn) (m : TileValue)
    (hres : g.result = none)
    (htile : g.board.value_at_coords t.coords = some (some m)) :
    g.take_turn t = some (.error (.TileFull m), g) := by
  unfold Game.take_turn
  rw [hres, htile]

theorem take_turn_tile_full_witness :
    Game.exampleX00.take_turn ⟨TileValue.O, ⟨0, 0⟩⟩ =
      some (.error (.TileFull TileValue.X), Game.exampleX00) :=
  take_turn_tile_full Game.exampleX00 ⟨TileValue.O, ⟨0, 0⟩⟩ TileValue.X rfl rfl

/-- C3: once a result `r` is cached, `take_turn` on any move returns
`GameOver r` and leaves the whole game state unchanged. -/
theorem take_turn_game_over (g : Game) (t : Turn) (r : GameResult)
    (hres : g.result = some r) :
    g.take_turn t = some (.error (.GameOver r), g) := by
  unfold Game.take_turn
  rw [hres]

theorem take_turn_game_over_witness :
    Game.exampleOver.take_turn ⟨TileValue.O, ⟨1, 1⟩⟩ =
      some (.error (.GameOver (GameResult.Winner TileValue.X)), Game.exampleOver) :=
  take_turn_game_over Game.exampleOver ⟨TileValue.O, ⟨1, 1⟩⟩
    (GameResult.Winner TileValue.X) rfl

/-- C7: `Coords.build` succeeds exactly when both axes are in `[0,2]`, and
fails with `OutOfBounds` exactly when either axis is outside `[0,2]`. -/
theorem coords_build_bounds (row col : Nat) :
    (row ≤ 2 ∧ col ≤ 2 → Coords.build row col = .ok ⟨row, col⟩) ∧
    (2 < row ∨ 2 < col → Coords.build row col = .error .OutOfBounds) := by
  unfold Coords.build
  constructor
  · intro h
    rw [if_pos ⟨by omega, by omega⟩]
  · intro h
    rw [if_neg (by omega)]

theorem coords_build_bounds_witness :
    Coords.build 1 2 = .ok ⟨1, 2⟩ ∧ Coords.build 0 3 = .error .OutOfBounds :=
  ⟨(coords_build_bounds 1 2).1 ⟨by omega, by omega⟩,
   (coords_build_bounds 0 3).2 (Or.inr (by omega))⟩

/-- Any `Err` return of `take_turn` leaves the game state unchanged. -/
theorem Game.take_turn_error_unchanged (g : Game) (t : Turn) (e : TurnError) (g2 : Game)
    (h : g.take_turn t = some (.error e, g2)) : g2 = g := by
  unfold Game.take_turn at h
  repeat' split at h
  all_goals
    simp only [Option.some.injEq, Prod.mk.injEq, reduceCtorEq, false_and, and_false] at h
  all_goals exact h.2.symm

/-- Characterization of `check_and_update_result`: it returns the value of
`check_end` and caches it in `result`. -/
theorem Game.check_and_update_eq (g : Game) (res : Option GameResult) (g2 : Game) :
    g.check_and_update_result = some (res, g2) ↔
      g.check_end = some res ∧ g2 = { g with result := res } := by
  unfold Game.check_and_update_result
  constructor
  · intro h
    split at h
    · exact absurd h (by simp)
    · rename_i r heq
      simp only [Option.some.injEq, Prod.mk.injEq] at h
      obtain ⟨rfl, rfl⟩ := h
      exact ⟨heq, rfl⟩
  · rintro ⟨h1, h2⟩
    rw [h1, h2]

/-- Characterization of a successful `take_turn`: the game was not over, the
target tile was empty, and the new state is the old one with the tile set,
the turn appended, and the freshly recomputed result cached. -/
theorem Game.take_turn_ok_iff (g : Game) (t : Turn) (res : Option GameResult) (g2 : Game) :
    g.take_turn t = some (.ok res, g2) ↔
      g.result = none ∧ g.board.value_at_coords t.coords = some none ∧
      ∃ b2, g.board.set_tile t.coords (some t.value) = some b2 ∧
        ({ g with
            board := b2
            turn_history := g.turn_history ++ [t]
            result := none } : Game).check_end = some res ∧
        g2 = { g with board := b2, turn_history := g.turn_history ++ [t], result := res } := by
  constructor
  · intro h
    unfold Game.take_turn at h
    cases hres : g.result with
    | some x => rw [hres] at h; simp at h
    | none =>
      rw [hres] at h
      cases hval : g.board.value_at_coords t.coords with
      | none => rw [hval] at h; simp at h
      | some tv =>
        rw [hval] at h
        cases tv with
        | some v => simp at h
        | none =>
          cases hset : g.board.set_tile t.coords (some t.value) with
          | none => rw [hset] at h; simp at h
          | some b2 =>
            rw [hset] at h
            simp only [Option.some.injEq] at h
            cases hupd : Game.check_and_update_result { board := b2, turn_history := g.turn_history ++ [t], player_turn := g.player_turn, result := none } with
            | none => rw [hupd] at h; simp at h
            | some p =>
              rw [hupd] at h
              obtain ⟨r2, g3⟩ := p
              simp at h
              obtain ⟨rfl, rfl⟩ := h
              obtain ⟨hce, rfl⟩ := (Game.check_and_update_eq _ _ _).mp hupd
              exact ⟨rfl, rfl, b2, rfl, hce, rfl⟩
  · rintro ⟨h1, h2, b2, h3, h4, h5⟩
    subst h5
    unfold Game.take_turn
    simp only [h1, h2, h3]
    have hupd := (Game.check_and_update_eq _ res _).mpr ⟨h4, rfl⟩
    rw [hupd]

/-- The state reached from `Game::new` by `take_turn` with `X` at `(0,0)`:
like `Game.exampleX00` but with the turn mark still untoggled. -/
def Game.afterTakeX00 : Game :=
  { Game.exampleX00 with player_turn := TileValue.X }

/-- C4: `play_coords` submits the move with the engine's current `player_turn`
mark; on success the mark is toggled for the next call, and on failure the
same error is returned with the whole state (mark included) unchanged. -/
theorem play_coords_turn_discipline (g : Game) (c : Coords) :
    (∀ res g2, g.take_turn ⟨g.player_turn, c⟩ = some (.ok res, g2) →
      g.play_coords c = some (.ok res, { g2 with player_turn := g.player_turn.toggle })) ∧
    (∀ e g2, g.take_turn ⟨g.player_turn, c⟩ = some (.error e, g2) →
      g.play_coords c = some (.error e, g)) := by
  constructor
  · intro res g2 h
    have hpt : g2.player_turn = g.player_turn := by
      obtain ⟨-, -, b2, -, -, rfl⟩ := (Game.take_turn_ok_iff g _ res g2).mp h
      rfl
    unfold Game.play_coords
    rw [h, ← hpt]
  · intro e g2 h
    obtain rfl := Game.take_turn_error_unchanged _ _ _ _ h
    unfold Game.play_coords
    rw [h]

theorem play_coords_turn_discipline_witness :
    Game.new.play_coords ⟨0, 0⟩ = some (.ok none, Game.exampleX00) :=
  (play_coords_turn_discipline Game.new ⟨0, 0⟩).1 none Game.afterTakeX00 rfl

/-- C5: a successful `take_turn` writes the move's mark at the move's
coordinates, appends the move to the history, recomputes the end state on
the updated board, caches it, returns it, and touches nothing else. -/
theorem take_turn_success_effects (g : Game) (t : Turn) (res : Option GameResult) (g2 : Game)
    (h : g.take_turn t = some (.ok res, g2)) :
    g.board.set_tile t.coords (some t.value) = some g2.board ∧
    g2.turn_history = g.turn_history ++ [t] ∧
    g2.result = res ∧
    ({ g with board := g2.board, turn_history := g.turn_history ++ [t], result := none } : Game).check_end = some res ∧
    g2.player_turn = g.player_turn := by
  obtain ⟨h1, h2, b2, h3, h4, rfl⟩ := (Game.take_turn_ok_iff g t res g2).mp h
  exact ⟨h3, rfl, rfl, h4, rfl⟩

theorem take_turn_success_effects_witness :
    Game.new.board.set_tile ⟨0, 0⟩ (some TileValue.X) = some Game.afterTakeX00.board ∧
    Game.afterTakeX00.turn_history = Game.new.turn_history ++ [⟨TileValue.X, ⟨0, 0⟩⟩] ∧
    Game.afterTakeX00.result = none ∧
    ({ Game.new with board := Game.afterTakeX00.board, turn_history := Game.new.turn_history ++ [⟨TileValue.X, ⟨0, 0⟩⟩], result := none } : Game).check_end = some none ∧
    Game.afterTakeX00.player_turn = Game.new.player_turn :=
  take_turn_success_effects Game.new ⟨TileValue.X, ⟨0, 0⟩⟩ none Game.afterTakeX00 rfl

/-- A single `take_turn` call never rewrites the history: it either leaves it
unchanged (failure) or appends exactly the submitted turn (success). -/
theorem Game.take_turn_history_append (g : Game) (t : Turn)
    (out : Except TurnError (Option GameResult)) (g2 : Game)
    (h : g.take_turn t = some (out, g2)) :
    g2.turn_history = g.turn_history ∨ g2.turn_history = g.turn_history ++ [t] := by
  cases out with
  | error e =>
    rw [Game.take_turn_error_unchanged g t e g2 h]
    exact Or.inl rfl
  | ok res =>
    obtain ⟨-, -, b2, -, -, rfl⟩ := (Game.take_turn_ok_iff g t res g2).mp h
    exact Or.inr rfl

/-- A single `play_coords` call never rewrites the history either. -/
theorem Game.play_coords_history_append (g : Game) (c : Coords)
    (out : Except TurnError (Option GameResult)) (g2 : Game)
    (h : g.play_coords c = some (out, g2)) :
    g2.turn_history = g.turn_history ∨
      ∃ t, g2.turn_history = g.turn_history ++ [t] := by
  unfold Game.play_coords at h
  cases htt : g.take_turn ⟨g.player_turn, c⟩ with
  | none => rw [htt] at h; exact Option.noConfusion h
  | some p =>
    obtain ⟨o, g3⟩ := p
    rw [htt] at h
    cases o with
    | error e =>
      simp only [Option.some.injEq, Prod.mk.injEq] at h
      obtain ⟨-, rfl⟩ := h
      obtain rfl := Game.take_turn_error_unchanged _ _ _ _ htt
      exact Or.inl rfl
    | ok res =>
      simp only [Option.some.injEq, Prod.mk.injEq] at h
      obtain ⟨-, rfl⟩ := h
      obtain ⟨-, -, b2, -, -, rfl⟩ := (Game.take_turn_ok_iff g _ res g3).mp htt
      exact Or.inr ⟨⟨g.player_turn, c⟩, rfl⟩

/-- Running `run_turns` appends exactly the accepted turns, in order. -/
theorem Game.run_turns_history (ts : List Turn) :
    ∀ g g2 : Game, Game.run_turns g ts = some g2 →
      g2.turn_history = g.turn_history ++ ts := by
  induction ts with
  | nil =>
    intro g g2 h
    unfold Game.run_turns at h
    simp only [Option.some.injEq] at h
    rw [← h]
    exact (List.append_nil _).symm
  | cons t ts ih =>
    intro g g2 h
    unfold Game.run_turns at h
    cases htt : g.take_turn t with
    | none => rw [htt] at h; exact Option.noConfusion h
    | some p =>
      obtain ⟨o, g3⟩ := p
      rw [htt] at h
      cases o with
      | error e => exact Option.noConfusion h
      | ok res =>
        change Game.run_turns g3 ts = some g2 at h
        have h3 : g3.turn_history = g.turn_history ++ [t] := by
          obtain ⟨-, -, b2, -, -, rfl⟩ := (Game.take_turn_ok_iff g t res g3).mp htt
          rfl
        rw [ih g3 g2 h, h3, List.append_assoc]
        rfl

/-- The state reached from a fresh game by the two accepted moves `X@(0,0)`
then `O@(1,1)` (submitted through `take_turn`). -/
def Game.exampleTwoMoves : Game :=
  ⟨⟨[[some TileValue.X, none, none], [none, some TileValue.O, none], [none, none, none]]⟩,
    [⟨TileValue.X, ⟨0, 0⟩⟩, ⟨TileValue.O, ⟨1, 1⟩⟩], TileValue.X, none⟩

/-- C6: after a sequence of `N` accepted moves from a fresh game the history
is exactly that sequence (length `N`, i-th entry the i-th accepted move), and
individual `take_turn` / `play_coords` calls only ever append to it. -/
theorem history_round_trip :
    (∀ (ts : List Turn) (g2 : Game), Game.run_turns Game.new ts = some g2 →
      g2.turn_history.length = ts.length ∧ g2.turn_history = ts) ∧
    (∀ (g : Game) (t : Turn) out (g2 : Game), Game.take_turn g t = some (out, g2) →
      g2.turn_history = g.turn_history ∨ g2.turn_history = g.turn_history ++ [t]) ∧
    (∀ (g : Game) (c : Coords) out (g2 : Game), Game.play_coords g c = some (out, g2) →
      g2.turn_history = g.turn_history ∨ ∃ t, g2.turn_history = g.turn_history ++ [t]) := by
  refine ⟨fun ts g2 h => ?_, Game.take_turn_history_append, Game.play_coords_history_append⟩
  have h2 : g2.turn_history = ts := by
    simpa [Game.new] using Game.run_turns_history ts Game.new g2 h
  exact ⟨by rw [h2], h2⟩

theorem history_round_trip_witness :
    Game.exampleTwoMoves.turn_history.length =
        ([⟨TileValue.X, ⟨0, 0⟩⟩, ⟨TileValue.O, ⟨1, 1⟩⟩] : List Turn).length ∧
      Game.exampleTwoMoves.turn_history =
        ([⟨TileValue.X, ⟨0, 0⟩⟩, ⟨TileValue.O, ⟨1, 1⟩⟩] : List Turn) :=
  history_round_trip.1 [⟨TileValue.X, ⟨0, 0⟩⟩, ⟨TileValue.O, ⟨1, 1⟩⟩]
    Game.exampleTwoMoves rfl

/-- Inversion for a successful `set_tile`. -/
theorem Board.set_tile_inv (b : Board) (c : Coords) (v : Option TileValue) (b2 : Board)
    (h : b.set_tile c v = some b2) :
    ∃ r, b.tiles[c.row]? = some r ∧ c.col < r.length ∧
      b2 = ⟨b.tiles.set c.row (r.set c.col v)⟩ := by
  unfold Board.set_tile at h
  cases hr : b.tiles[c.row]? with
  | none => rw [hr] at h; exact Option.noConfusion h
  | some r =>
    simp only [hr] at h
    split at h
    · rename_i hc
      exact ⟨r, rfl, hc, (Option.some.inj h).symm⟩
    · exact Option.noConfusion h

/-- Reading back the tile just written by `set_tile`. -/
theorem Board.value_at_set_self (b : Board) (c : Coords) (v : Option TileValue) (b2 : Board)
    (h : b.set_tile c v = some b2) : b2.value_at_coords c = some v := by
  obtain ⟨r, hr, hc, rfl⟩ := Board.set_tile_inv b c v b2 h
  obtain ⟨hrow, -⟩ := List.getElem?_eq_some.mp hr
  unfold Board.value_at_coords
  simp only [List.getElem?_set_self hrow]
  exact List.getElem?_set_self hc

/-- `set_tile` does not disturb any other coordinate. -/
theorem Board.value_at_set_other (b : Board) (c : Coords) (v : Option TileValue) (b2 : Board)
    (h : b.set_tile c v = some b2) (c' : Coords) (hne : c' ≠ c) :
    b2.value_at_coords c' = b.value_at_coords c' := by
  obtain ⟨r, hr, hc, rfl⟩ := Board.set_tile_inv b c v b2 h
  unfold Board.value_at_coords
  by_cases hrow : c'.row = c.row
  · have hcol : c.col ≠ c'.col := by
      intro hcol
      apply hne
      cases c
      cases c'
      simp_all
    rw [hrow]
    obtain ⟨hlt, -⟩ := List.getElem?_eq_some.mp hr
    simp only [List.getElem?_set_self hlt, hr]
    exact List.getElem?_set_ne hcol
  · have h1 : (b.tiles.set c.row (r.set c.col v))[c'.row]? = b.tiles[c'.row]? :=
      List.getElem?_set_ne (fun hh => hrow hh.symm)
    rw [h1]

/-- C1: `check_end` implements exactly the specified end-state algorithm
(cached-result short-circuit, scan of the 8 lines in the fixed
rows/columns/diagonals order skipping lines with empty tiles, first
fully-matched line wins, tie on a full board, otherwise no result); in
particular on an empty board it returns no result. -/
theorem check_end_matches_spec :
    (∀ g : Game, g.board.WF → g.check_end = some (Game.check_end_from_spec g)) ∧
    Game.new.check_end = some none :=
  ⟨Game.check_end_eq_spec, by decide⟩

theorem check_end_matches_spec_witness :
    Game.exampleTwoMoves.check_end =
      some (Game.check_end_from_spec Game.exampleTwoMoves) :=
  check_end_matches_spec.1 Game.exampleTwoMoves (by decide)

/-- C9: no panic for valid API usage — reading any successfully constructed
coordinate on a well-formed board succeeds, the `expect` branches inside the
line check are unreachable once empty-tile lines are skipped, and `check_end`
as a whole never reaches a panic. -/
theorem no_panic_valid_use :
    (∀ (row col : Nat) (c : Coords) (b : Board), b.WF →
      Coords.build row col = .ok c → (b.value_at_coords c).isSome = true) ∧
    (∀ t0 t1 t2 : Option TileValue, Game.line_result t0 t1 t2 ≠ none) ∧
    (∀ g : Game, g.board.WF → g.check_end.isSome = true) := by
  refine ⟨?_, ?_, ?_⟩
  · intro row col c b hb hbuild
    obtain ⟨rfl, hr, hc⟩ := Coords.build_ok row col c hbuild
    obtain ⟨t, ht⟩ := Board.value_at_coords_total b hb ⟨row, col⟩ hr hc
    rw [ht]
    rfl
  · intro t0 t1 t2
    rw [Game.line_result_eq_spec]
    simp
  · intro g hb
    rw [Game.check_end_eq_spec g hb]
    rfl

theorem no_panic_valid_use_witness :
    (Board.new.value_at_coords ⟨1, 2⟩).isSome = true ∧
    Game.line_result (some TileValue.X) none none ≠ none ∧
    Game.exampleX00.check_end.isSome = true :=
  ⟨no_panic_valid_use.1 1 2 ⟨1, 2⟩ Board.new (by decide) rfl,
   no_panic_valid_use.2.1 (some TileValue.X) none none,
   no_panic_valid_use.2.2 Game.exampleX00 (by decide)⟩

/-- A line reports winner `m` only when all three of its tiles hold `m`. -/
theorem Game.line_result_winner_inv :
    ∀ (t0 t1 t2 : Option TileValue) (m : TileValue),
      Game.line_result t0 t1 t2 = some (some (GameResult.Winner m)) →
      t0 = some m ∧ t1 = some m ∧ t2 = some m := by
  decide

/-- A line whose three tiles all hold `m` reports winner `m`. -/
theorem Game.line_result_all_same (m : TileValue) :
    Game.line_result (some m) (some m) (some m) =
      some (some (GameResult.Winner m)) := by
  cases m <;> rfl

/-- `check_line` reports winner `m` only when all three reads of the line
succeed and hold `m`. -/
theorem Game.check_line_winner_inv (b : Board) (l : Coords × Coords × Coords) (m : TileValue)
    (h : Game.check_line b l = some (some (GameResult.Winner m))) :
    b.value_at_coords l.1 = some (some m) ∧
    b.value_at_coords l.2.1 = some (some m) ∧
    b.value_at_coords l.2.2 = some (some m) := by
  unfold Game.check_line at h
  cases h0 : b.value_at_coords l.1 <;>
    cases h1 : b.value_at_coords l.2.1 <;>
      cases h2 : b.value_at_coords l.2.2 <;>
        simp only [h0, h1, h2, reduceCtorEq] at h
  rename_i t0 t1 t2
  obtain ⟨e0, e1, e2⟩ := Game.line_result_winner_inv t0 t1 t2 m h
  rw [e0, e1, e2]
  exact ⟨rfl, rfl, rfl⟩

/-- Inversion of a no-winner scan step. -/
theorem Game.scan_lines_cons_none (b : Board) (l : Coords × Coords × Coords)
    (rest : List (Coords × Coords × Coords))
    (h : Game.scan_lines b (l :: rest) = some none) :
    Game.check_line b l = some none ∧ Game.scan_lines b rest = some none := by
  unfold Game.scan_lines at h
  cases hc : Game.check_line b l with
  | none => rw [hc] at h; exact Option.noConfusion h
  | some o =>
    cases o with
    | some r => simp only [hc, Option.some.injEq, reduceCtorEq] at h
    | none => simp only [hc] at h; exact ⟨rfl, h⟩

/-- Inversion of a winning scan step: the winner comes from the head line or
from the rest of the scan after the head was skipped or did not win. -/
theorem Game.scan_lines_cons_winner (b : Board) (l : Coords × Coords × Coords)
    (rest : List (Coords × Coords × Coords)) (r : GameResult)
    (h : Game.scan_lines b (l :: rest) = some (some r)) :
    Game.check_line b l = some (some r) ∨
      (Game.check_line b l = some none ∧ Game.scan_lines b rest = some (some r)) := by
  unfold Game.scan_lines at h
  cases hc : Game.check_line b l with
  | none => rw [hc] at h; exact Option.noConfusion h
  | some o =>
    cases o with
    | some r2 =>
      simp only [hc, Option.some.injEq] at h
      exact Or.inl (by rw [h])
    | none =>
      simp only [hc] at h
      exact Or.inr ⟨rfl, h⟩

/-- If a board scan finds no winner, and a second board differs from it at
exactly one coordinate `c` (now holding mark `v`), then any winner the scan
finds on the second board is `v`: the winning line must run through the
changed tile. -/
theorem Game.scan_new_winner (b b2 : Board) (c : Coords) (v : TileValue)
    (hother : ∀ c', c' ≠ c → b2.value_at_coords c' = b.value_at_coords c')
    (hc : b2.value_at_coords c = some (some v)) :
    ∀ ls : List (Coords × Coords × Coords),
      Game.scan_lines b ls = some none →
      ∀ m, Game.scan_lines b2 ls = some (some (GameResult.Winner m)) → m = v := by
  intro ls
  induction ls with
  | nil =>
    intro _ m h2
    exact absurd h2 (by simp [Game.scan_lines])
  | cons l rest ih =>
    intro h1 m h2
    obtain ⟨hl1, hrest1⟩ := Game.scan_lines_cons_none b l rest h1
    rcases Game.scan_lines_cons_winner b2 l rest _ h2 with hl2 | ⟨-, hrest2⟩
    · obtain ⟨e0, e1, e2⟩ := Game.check_line_winner_inv b2 l m hl2
      by_cases hc0 : l.1 = c
      · rw [hc0] at e0
        exact Option.some.inj (Option.some.inj (e0.symm.trans hc))
      · by_cases hc1 : l.2.1 = c
        · rw [hc1] at e1
          exact Option.some.inj (Option.some.inj (e1.symm.trans hc))
        · by_cases hc2 : l.2.2 = c
          · rw [hc2] at e2
            exact Option.some.inj (Option.some.inj (e2.symm.trans hc))
          · exfalso
            have f0 : b.value_at_coords l.1 = some (some m) := by
              rw [← hother l.1 hc0]; exact e0
            have f1 : b.value_at_coords l.2.1 = some (some m) := by
              rw [← hother l.2.1 hc1]; exact e1
            have f2 : b.value_at_coords l.2.2 = some (some m) := by
              rw [← hother l.2.2 hc2]; exact e2
            have hwin : Game.check_line b l = some (some (GameResult.Winner m)) := by
              unfold Game.check_line
              rw [f0, f1, f2]
              exact Game.line_result_all_same m
            rw [hwin] at hl1
            simp at hl1
    · exact ih hrest1 m hrest2

/-- After a successful `take_turn` the freshly cached result is exactly what
`check_end` of the new state reports. -/
theorem Game.take_turn_ok_check_end (g : Game) (t : Turn) (res : Option GameResult)
    (g3 : Game) (htt : g.take_turn t = some (.ok res, g3)) :
    g3.check_end = some g3.result := by
  obtain ⟨h1, h2, b2, h3, h4, rfl⟩ := (Game.take_turn_ok_iff g t res g3).mp htt
  cases res with
  | some r => rfl
  | none => exact h4

/-- Invariant of every reachable state: the cached result is exactly what a
fresh `check_end` of the state would report (so it never lags the board). -/
theorem Game.reachable_check_end (g : Game) (h : Game.Reachable g) :
    g.check_end = some g.result := by
  induction h with
  | new => decide
  | take g t out g2 hreach htt ih =>
    cases out with
    | error e =>
      obtain rfl := Game.take_turn_error_unchanged _ _ _ _ htt
      exact ih
    | ok res => exact Game.take_turn_ok_check_end g t res g2 htt
  | play g c out g2 hreach hpc ih =>
    unfold Game.play_coords at hpc
    cases htt : g.take_turn ⟨g.player_turn, c⟩ with
    | none => rw [htt] at hpc; exact Option.noConfusion hpc
    | some p =>
      obtain ⟨o, g3⟩ := p
      rw [htt] at hpc
      cases o with
      | error e =>
        simp only [Option.some.injEq, Prod.mk.injEq] at hpc
        obtain ⟨-, rfl⟩ := hpc
        obtain rfl := Game.take_turn_error_unchanged _ _ _ _ htt
        exact ih
      | ok res =>
        simp only [Option.some.injEq, Prod.mk.injEq] at hpc
        obtain ⟨-, rfl⟩ := hpc
        exact Game.take_turn_ok_check_end g _ res g3 htt

/-- In a reachable state with no cached result, the win-line scan finds no
winner. -/
theorem Game.reachable_scan_none (g : Game) (h : Game.Reachable g)
    (hres : g.result = none) :
    Game.scan_lines g.board Game.WIN_LINES = some none := by
  have hce := Game.reachable_check_end g h
  rw [hres] at hce
  unfold Game.check_end at hce
  rw [hres] at hce
  simp only [Option.isSome_none, Bool.false_eq_true, if_false] at hce
  cases hs : Game.scan_lines g.board Game.WIN_LINES with
  | none => rw [hs] at hce; exact Option.noConfusion hce
  | some o =>
    cases o with
    | some r => simp only [hs, Option.some.injEq, reduceCtorEq] at hce
    | none => rfl

/-- The reachable state in which `X` holds `(0,0)` and `(0,1)`, `O` holds
`(1,0)` and `(1,1)`, and no result is cached yet. -/
def Game.exampleAlmostWin : Game :=
  ⟨⟨[[some TileValue.X, some TileValue.X, none],
     [some TileValue.O, some TileValue.O, none],
     [none, none, none]]⟩,
    [⟨TileValue.X, ⟨0, 0⟩⟩, ⟨TileValue.O, ⟨1, 0⟩⟩,
     ⟨TileValue.X, ⟨0, 1⟩⟩, ⟨TileValue.O, ⟨1, 1⟩⟩],
    TileValue.X, none⟩

/-- C10: from any reachable state (arbitrary, possibly non-alternating marks
submitted through `take_turn` or `play_coords`), a `take_turn` call that
returns `Ok(Some(Winner(m)))` always has `m` equal to the mark of the move
just submitted — a move can never hand the win to the other mark. -/
theorem take_turn_winner_is_mover (g : Game) (t : Turn) (m : TileValue) (g2 : Game)
    (hreach : Game.Reachable g)
    (h : g.take_turn t = some (.ok (some (GameResult.Winner m)), g2)) :
    m = t.value := by
  obtain ⟨h1, h2, b2, h3, h4, rfl⟩ := (Game.take_turn_ok_iff g t _ g2).mp h
  have hscan2 : Game.scan_lines b2 Game.WIN_LINES = some (some (GameResult.Winner m)) := by
    unfold Game.check_end at h4
    simp only [Option.isSome_none, Bool.false_eq_true, if_false] at h4
    cases hs : Game.scan_lines b2 Game.WIN_LINES with
    | none => rw [hs] at h4; exact Option.noConfusion h4
    | some o =>
      cases o with
      | some r =>
        simp only [hs, Option.some.injEq] at h4
        rw [h4]
      | none =>
        simp only [hs] at h4
        split at h4 <;> simp at h4
  have hscan1 := Game.reachable_scan_none g hreach h1
  exact Game.scan_new_winner g.board b2 t.coords t.value
    (fun c' hne => Board.value_at_set_other g.board t.coords (some t.value) b2 h3 c' hne)
    (Board.value_at_set_self g.board t.coords (some t.value) b2 h3)
    Game.WIN_LINES hscan1 m hscan2

theorem take_turn_winner_is_mover_witness :
    TileValue.X = (Turn.mk TileValue.X ⟨0, 2⟩).value :=
  take_turn_winner_is_mover Game.exampleAlmostWin ⟨TileValue.X, ⟨0, 2⟩⟩ TileValue.X _
    (Game.Reachable.take _ ⟨TileValue.O, ⟨1, 1⟩⟩ _ _
      (Game.Reachable.take _ ⟨TileValue.X, ⟨0, 1⟩⟩ _ _
        (Game.Reachable.take _ ⟨TileValue.O, ⟨1, 0⟩⟩ _ _
          (Game.Reachable.take _ ⟨TileValue.X, ⟨0, 0⟩⟩ _ _ Game.Reachable.new rfl)
          rfl)
        rfl)
      rfl)
    rfl

/-- C8: `toggle` is an involution, with `toggle X = O` and `toggle O = X`. -/
theorem toggle_involution :
    (∀ m : TileValue, m.toggle.toggle = m) ∧
      TileValue.X.toggle = TileValue.O ∧ TileValue.O.toggle = TileValue.X :=
  ⟨fun m => by cases m <;> rfl, rfl, rfl⟩
